import Mathlib

/-!
Shallow embedding of the Music_App core (src/main.py): the Song and
Playlist entities, the MusicApp library store with its undo stack, the
load path of the persistence codec, and the search / export projections.
Strings are modelled as lists of characters (`PyStr`), mirroring Python
string operations (`lower`, `strip`, `split`, `join`) explicitly.
-/

namespace MusicApp

/-- Python strings, modelled as lists of characters. -/
abbrev PyStr := List Char

/-- Coerce a Lean string literal to the `PyStr` model. -/
def pystr (s : String) : PyStr := s.data

/-- Model of Python `str.lower()` (ASCII case folding). -/
def lowerStr (s : PyStr) : PyStr := s.map Char.toLower

/-- Characters stripped by Python `str.strip()` (the ASCII whitespace set). -/
def isPySpace (c : Char) : Bool :=
  c == ' ' || c == '\t' || c == '\n' || c == '\r' || c == '\x0B' || c == '\x0C'

/-- Model of Python `str.strip()`: drop leading and trailing whitespace. -/
def pyStrip (l : PyStr) : PyStr :=
  ((l.dropWhile isPySpace).reverse.dropWhile isPySpace).reverse

/-- Model of Python `str.split(',')`: always at least one piece, empty
pieces kept. -/
def splitComma : PyStr → List PyStr
  | [] => [[]]
  | c :: cs =>
    match splitComma cs with
    | [] => [[c]]
    | p :: ps => if c = ',' then [] :: p :: ps else (c :: p) :: ps

/-- Model of Python `", ".join(...)` as used by `Song.from_dict`. -/
def joinCommaSpace : List PyStr → PyStr
  | [] => []
  | [a] => a
  | a :: b :: rest => a ++ ',' :: ' ' :: joinCommaSpace (b :: rest)

/-- True for the characters accepted by `[0-5]` in the duration pattern. -/
def isSecHigh (c : Char) : Bool :=
  c == '0' || c == '1' || c == '2' || c == '3' || c == '4' || c == '5'

/-- After the leading digit of `^\d+:[0-5]\d$`: consume further digits,
then require `:[0-5]\d` ending the string. -/
def durRest : PyStr → Bool
  | [] => false
  | c :: rest =>
    if c.isDigit then durRest rest
    else
      c == ':' &&
        match rest with
        | [a, b] => isSecHigh a && b.isDigit
        | _ => false

/-- Plain (mathematical) full match of `^\d+:[0-5]\d$` against the whole
string. -/
def plainDurMatch : PyStr → Bool
  | [] => false
  | c :: rest => c.isDigit && durRest rest

/-- Model of Python `re.match(r'^\d+:[0-5]\d$', s)`: in Python `$` also
matches just before a single newline at the end of the string, so a
trailing `'\n'` is tolerated. -/
def reDurationMatch (s : PyStr) : Bool :=
  plainDurMatch s || (s.getLast? == some '\n' && plainDurMatch s.dropLast)

/-- Errors a modelled operation can raise: Python `ValueError` and
`KeyError`. -/
inductive PyErr
  | valueErr
  | keyErr
deriving DecidableEq

/-- The Song entity (src/main.py, class Song). Fields as stored by
`Song.__init__` after validation. -/
structure Song where
  name : PyStr
  artists : List PyStr
  album : PyStr
  genre : PyStr
  duration : PyStr
deriving DecidableEq

/-- Model of `Song.__init__`: reject falsy (empty) `name`, reject a
duration not accepted by `re.match(r'^\d+:[0-5]\d$', ...)`, then split the
artists text on `','` and strip each piece. -/
def songInit (name artistsText album genre duration : PyStr) :
    Except PyErr Song :=
  if name = [] then .error .valueErr
  else if reDurationMatch duration then
    .ok { name := name, artists := (splitComma artistsText).map pyStrip,
          album := album, genre := genre, duration := duration }
  else .error .valueErr

/-- A serialized song record: a Python dict whose expected keys may be
absent (absence models `KeyError` on access). -/
structure RawSong where
  name : Option PyStr
  artists : Option (List PyStr)
  album : Option PyStr
  genre : Option PyStr
  duration : Option PyStr
deriving DecidableEq

/-- Model of Python `dict[key]`: `KeyError` when the key is missing. -/
def getKey {α : Type} : Option α → Except PyErr α
  | none => .error .keyErr
  | some a => .ok a

/-- Model of `Song.to_dict`. -/
def Song.to_dict (s : Song) : RawSong :=
  { name := some s.name, artists := some s.artists, album := some s.album,
    genre := some s.genre, duration := some s.duration }

/-- Model of `Song.from_dict`: read every field (KeyError if missing),
join the artist list with `", "`, and re-run full construction
validation via `Song.__init__`. -/
def Song.from_dict (d : RawSong) : Except PyErr Song := do
  let n ← getKey d.name
  let as ← getKey d.artists
  let al ← getKey d.album
  let g ← getKey d.genre
  let du ← getKey d.duration
  songInit n (joinCommaSpace as) al g du

/-- The Playlist entity (src/main.py, class Playlist). -/
structure Playlist where
  name : PyStr
  songs : List Song
deriving DecidableEq

/-- Model of `Playlist.add_song`: append, no duplicate check. -/
def Playlist.add_song (p : Playlist) (s : Song) : Playlist :=
  { p with songs := p.songs ++ [s] }

/-- Model of `Playlist.remove_song`: keep only the songs whose lowered
name differs from the lowered argument. -/
def Playlist.remove_song (p : Playlist) (song_name : PyStr) : Playlist :=
  { p with songs := p.songs.filter fun s => !(lowerStr s.name == lowerStr song_name) }

/-- A serialized playlist record, keys possibly absent. -/
structure RawPlaylist where
  name : Option PyStr
  songs : Option (List RawSong)
deriving DecidableEq

/-- Model of `Playlist.to_dict`. -/
def Playlist.to_dict (p : Playlist) : RawPlaylist :=
  { name := some p.name, songs := some (p.songs.map Song.to_dict) }

/-- Model of `Playlist.from_dict`: read the name, then rebuild every song
through `Song.from_dict` in order; the first error aborts. -/
def Playlist.from_dict (d : RawPlaylist) : Except PyErr Playlist := do
  let n ← getKey d.name
  let raws ← getKey d.songs
  let ss ← raws.mapM Song.from_dict
  return { name := n, songs := ss }

/-- The single undoable operation kind recorded on the undo stack. -/
inductive UndoAction
  | remove
deriving DecidableEq

/-- The MusicApp library store state: master song list, playlists, and
the in-memory undo stack (top at the end, as Python `append`/`pop`). -/
structure AppState where
  songs : List Song
  playlists : List Playlist
  undo_stack : List (UndoAction × Song)
deriving DecidableEq

/-- The pre-load state set up by `MusicApp.__init__` before `load_data`. -/
def emptyState : AppState := { songs := [], playlists := [], undo_stack := [] }

/-- Case-insensitive exact name match used by the store's song lookups. -/
def matchNameB (n : PyStr) (s : Song) : Bool := lowerStr s.name == lowerStr n

/-- Case-insensitive exact name match used by the store's playlist
lookups. -/
def matchPlB (n : PyStr) (p : Playlist) : Bool := lowerStr p.name == lowerStr n

/-- Model of the confirmed path of `MusicApp.remove_song`: find the first
song whose name matches case-insensitively; if found, push `(remove, song)`
on the undo stack, remove that song from `songs`, and filter every
playlist's song list by the same case-insensitive name test; report
whether a song was found. -/
def remove_song (st : AppState) (song_name : PyStr) : AppState × Bool :=
  match st.songs.find? (matchNameB song_name) with
  | none => (st, false)
  | some song =>
    ({ songs := st.songs.erase song
     , playlists := st.playlists.map fun p =>
         { p with songs := p.songs.filter fun s => !(matchNameB song_name s) }
     , undo_stack := st.undo_stack ++ [(UndoAction.remove, song)] }, true)

/-- Model of `MusicApp.undo`: on an empty stack do nothing and report
nothing to undo; otherwise pop the most recent entry and, it being a
remove entry, re-append the recorded song to `songs`. -/
def undo (st : AppState) : AppState × Option Song :=
  match st.undo_stack.getLast? with
  | none => (st, none)
  | some (a, song) =>
    match a with
    | .remove =>
      ({ st with songs := st.songs ++ [song],
                 undo_stack := st.undo_stack.dropLast }, some song)

/-- Model of adding one already-constructed song to the library
(`MusicApp.add_multiple_songs` body: `self.songs.append(song)`). -/
def add_song (st : AppState) (s : Song) : AppState :=
  { st with songs := st.songs ++ [s] }

/-- Model of `MusicApp.create_playlist`: append a fresh empty playlist,
with no uniqueness constraint on the name. -/
def create_playlist (st : AppState) (name : PyStr) : AppState :=
  { st with playlists := st.playlists ++ [{ name := name, songs := [] }] }

/-- Append `song` to the first playlist matching `pn` case-insensitively,
leaving all other playlists unchanged (the mutation performed on the
playlist object returned by `next(...)`). -/
def addToFirstMatching (pls : List Playlist) (pn : PyStr) (song : Song) :
    List Playlist :=
  match pls with
  | [] => []
  | p :: rest =>
    if matchPlB pn p then { p with songs := p.songs ++ [song] } :: rest
    else p :: addToFirstMatching rest pn song

/-- Model of `MusicApp.add_song_to_playlist`: look up the first matching
song and the first matching playlist case-insensitively; if both exist,
append the song to that playlist; otherwise change nothing. -/
def add_song_to_playlist (st : AppState) (song_name playlist_name : PyStr) :
    AppState × Bool :=
  match st.songs.find? (matchNameB song_name),
        st.playlists.find? (matchPlB playlist_name) with
  | some song, some _ =>
    ({ st with playlists := addToFirstMatching st.playlists playlist_name song },
     true)
  | _, _ => (st, false)

/-- Model of `MusicApp.search_songs`: keep the songs whose lowered name
contains the lowered search term as a substring (Python `in`). -/
def isSubstr (needle : PyStr) : PyStr → Bool
  | [] => needle.isEmpty
  | c :: rest => needle.isPrefixOf (c :: rest) || isSubstr needle rest

/-- Model of `MusicApp.search_songs` over a given search term. -/
def search_songs (st : AppState) (term : PyStr) : List Song :=
  st.songs.filter fun s => isSubstr (lowerStr term) (lowerStr s.name)

/-- One rendered line of `MusicApp.export_playlist` for a song:
`"{name} by {', '.join(artists)} ({duration})\n"`. -/
def exportLine (s : Song) : PyStr :=
  s.name ++ pystr " by " ++ joinCommaSpace s.artists ++ pystr " (" ++
    s.duration ++ pystr ")\n"

/-- Model of `MusicApp.export_playlist`: find the first playlist matching
case-insensitively; write the `Playlist:` header line, then, only when the
playlist is non-empty, the `Songs:` header and one line per entry in
order. `none` when no playlist matches. -/
def export_playlist (st : AppState) (playlist_name : PyStr) : Option PyStr :=
  match st.playlists.find? (matchPlB playlist_name) with
  | none => none
  | some p =>
    some (
      let header := pystr "Playlist: " ++ p.name ++ pystr "\n"
      if p.songs.isEmpty then header
      else p.songs.foldl (fun acc s => acc ++ exportLine s)
        (header ++ pystr "Songs:\n"))

/-- The data file as seen by `MusicApp.load_data`: absent, undecodable
JSON, or a decoded top-level dict whose two expected keys may be
missing. -/
structure RawData where
  songs : Option (List RawSong)
  playlists : Option (List RawPlaylist)
deriving DecidableEq

/-- Input cases of the load path. -/
inductive LoadInput
  | missing
  | malformed
  | parsed (d : RawData)

/-- Outcome of `load_data`: silent success, a caught-and-printed error
(`JSONDecodeError`/`KeyError`), or an uncaught exception (`ValueError`
from song re-validation). -/
inductive LoadStatus
  | ok
  | reported
  | raised
deriving DecidableEq

/-- Model of `MusicApp.load_data`. Mirrors the Python statement order:
`self.songs` is assigned as soon as the songs list comprehension finishes,
before `data["playlists"]` is read, so a later `KeyError` is caught with
the new songs already in place; `ValueError` is not caught at all. -/
def load_data (st : AppState) (input : LoadInput) : AppState × LoadStatus :=
  match input with
  | .missing => (st, .ok)
  | .malformed => (st, .reported)
  | .parsed d =>
    match getKey d.songs with
    | .error _ => (st, .reported)
    | .ok rawSongs =>
      match rawSongs.mapM Song.from_dict with
      | .error .keyErr => (st, .reported)
      | .error .valueErr => (st, .raised)
      | .ok songs =>
        match getKey d.playlists with
        | .error _ => ({ st with songs := songs }, .reported)
        | .ok rawPls =>
          match rawPls.mapM Playlist.from_dict with
          | .error .keyErr => ({ st with songs := songs }, .reported)
          | .error .valueErr => ({ st with songs := songs }, .raised)
          | .ok pls => ({ st with songs := songs, playlists := pls }, .ok)

/-- The library-store operations quantified over by the consistency
invariant. -/
inductive LibOp
  | addSong (s : Song)
  | removeSong (n : PyStr)
  | undoOp
  | createPlaylist (n : PyStr)
  | addSongToPlaylist (sn pn : PyStr)

/-- Apply one library-store operation, discarding its report value. -/
def applyOp (st : AppState) : LibOp → AppState
  | .addSong s => add_song st s
  | .removeSong n => (remove_song st n).1
  | .undoOp => (undo st).1
  | .createPlaylist n => create_playlist st n
  | .addSongToPlaylist sn pn => (add_song_to_playlist st sn pn).1

/-- Store consistency: every song referenced by any playlist has a
case-insensitive name match in the master song list. -/
def invariant (st : AppState) : Prop :=
  ∀ p ∈ st.playlists, ∀ s ∈ p.songs,
    ∃ t ∈ st.songs, lowerStr t.name = lowerStr s.name

instance (st : AppState) : Decidable (invariant st) := by
  unfold invariant; infer_instance

/-- A concrete well-formed song used to instantiate universally quantified
results on concrete inputs. -/
def songA : Song :=
  { name := pystr "Alpha", artists := [pystr "A1", pystr "A2"],
    album := pystr "Alb", genre := pystr "Rock", duration := pystr "3:30" }

/-- A concrete playlist containing `songA`. -/
def playlistP : Playlist := { name := pystr "P", songs := [songA] }

/-- A concrete library state: one song, one playlist referencing it. -/
def stOne : AppState :=
  { songs := [songA], playlists := [playlistP], undo_stack := [] }

/-- A concrete library state whose playlist is empty. -/
def stEmptyPl : AppState :=
  { songs := [songA], playlists := [{ name := pystr "Q", songs := [] }],
    undo_stack := [] }

/-- A serialized song record with every expected key missing. -/
def rawBad : RawSong :=
  { name := none, artists := none, album := none, genre := none,
    duration := none }

end MusicApp

namespace MusicApp

theorem find?_first {α : Type} (p : α → Bool) (l₁ : List α) (a : α)
    (l₂ : List α) (h₁ : ∀ x ∈ l₁, p x = false) (ha : p a = true) :
    (l₁ ++ a :: l₂).find? p = some a := by
  induction l₁ with
  | nil => simp [List.find?_cons_of_pos, ha]
  | cons x xs ih =>
    have hx : p x = false := h₁ x (by simp)
    simpa [List.find?_cons_of_neg, hx] using
      ih fun y hy => h₁ y (by simp [hy])

theorem isSubstr_nil_left (h : PyStr) : isSubstr [] h = true := by
  cases h <;> simp [isSubstr, List.isPrefixOf]

/-- C10: searching songs by name with the empty string as the term keeps
every song of the library, in library order, since the empty string is a
substring of every (lowered) name. -/
theorem search_songs_empty_term (st : AppState) :
    search_songs st (pystr "") = st.songs := by
  unfold search_songs
  refine List.filter_eq_self.mpr fun s _ => ?_
  have he : lowerStr (pystr "") = [] := rfl
  rw [he]
  exact isSubstr_nil_left _

/-- C5 counterexample: a whitespace-only name is not rejected by
`Song.__init__` (Python `if not name` only tests for the empty string, it
does not trim), so construction with name `" "` succeeds and produces a
song object. -/
theorem songInit_whitespace_name_accepted :
    songInit (pystr " ") (pystr "A") [] [] (pystr "3:30") =
      Except.ok { name := pystr " ", artists := [pystr "A"], album := [],
                  genre := [], duration := pystr "3:30" } := rfl

/-- C5 amended: construction fails with a validation error whenever the
name is the empty string, regardless of every other field (including an
invalid duration); names that are merely whitespace are not rejected. -/
theorem songInit_empty_name_rejected
    (artistsText album genre duration : PyStr) :
    songInit [] artistsText album genre duration =
      Except.error PyErr.valueErr := rfl

/-- C4 counterexample: `"3:30\n"` does not match the pattern
`^\d+:[0-5]\d$` read as a plain regular expression over the whole string,
yet Python `re.match` accepts it (`$` also matches before a trailing
newline), so Song construction succeeds on it. -/
theorem songInit_trailing_newline_counterexample :
    plainDurMatch (pystr "3:30\n") = false ∧
    songInit (pystr "A") (pystr "X") [] [] (pystr "3:30\n") =
      Except.ok { name := pystr "A", artists := [pystr "X"], album := [],
                  genre := [], duration := pystr "3:30\n" } :=
  ⟨by decide, rfl⟩

/-- C4 amended: for a non-empty name, construction fails with a
validation error for every duration rejected by the code's duration
check (the pattern with an optional single trailing newline), and the
check accepts every string that matches the plain pattern. -/
theorem songInit_duration_validation (name artistsText album genre duration : PyStr)
    (hn : name ≠ []) :
    (reDurationMatch duration = false →
      songInit name artistsText album genre duration =
        Except.error PyErr.valueErr) ∧
    (plainDurMatch duration = true →
      ∃ s, songInit name artistsText album genre duration = Except.ok s) := by
  constructor
  · intro hd
    simp [songInit, hn, hd]
  · intro hd
    have hre : reDurationMatch duration = true := by
      unfold reDurationMatch; rw [hd]; rfl
    refine ⟨{ name := name, artists := (splitComma artistsText).map pyStrip,
              album := album, genre := genre, duration := duration }, ?_⟩
    simp [songInit, hn, hre]

/-- Witness for the amended C4 theorem at concrete inputs. -/
theorem songInit_duration_validation_witness :
    (songInit (pystr "A") (pystr "X") [] [] (pystr "abc") =
      Except.error PyErr.valueErr) ∧
    (∃ s, songInit (pystr "A") (pystr "X") [] [] (pystr "3:30") =
      Except.ok s) :=
  ⟨(songInit_duration_validation (pystr "A") (pystr "X") [] [] (pystr "abc")
      (by decide)).1 (by decide),
   (songInit_duration_validation (pystr "A") (pystr "X") [] [] (pystr "3:30")
      (by decide)).2 (by decide)⟩

/-- C2: `undo` on an empty undo stack changes nothing and reports nothing
to undo; on a non-empty stack it pops the most recent entry and
re-appends the recorded song to the master song list, leaving every
playlist untouched. -/
theorem undo_spec (st : AppState) :
    (st.undo_stack = [] → undo st = (st, none)) ∧
    (∀ stk a song, st.undo_stack = stk ++ [(a, song)] →
      undo st = ({ st with songs := st.songs ++ [song], undo_stack := stk },
        some song)) := by
  constructor
  · intro h
    simp [undo, h]
  · intro stk a song h
    cases a
    simp [undo, h, List.getLast?_concat, List.dropLast_concat]

/-- Witness for the C2 theorem at concrete states. -/
theorem undo_spec_witness :
    undo stOne = (stOne, none) ∧
    undo { stOne with undo_stack := [(UndoAction.remove, songA)] } =
      ({ stOne with songs := stOne.songs ++ [songA], undo_stack := [] },
        some songA) :=
  ⟨(undo_spec stOne).1 rfl,
   (undo_spec { stOne with undo_stack := [(UndoAction.remove, songA)] }).2
     [] UndoAction.remove songA rfl⟩

/-- C1: `remove_song` with no case-insensitive match returns not-found
and leaves the whole state (songs, playlists, undo stack) unchanged; when
the songs list decomposes as `l₁ ++ song :: l₂` with the first match at
`song`, it pushes `(remove, song)` on the undo stack, removes exactly that
song from the master list, filters every matching entry out of every
playlist, and returns success. -/
theorem remove_song_spec (st : AppState) (n : PyStr) :
    ((∀ s ∈ st.songs, matchNameB n s = false) →
      remove_song st n = (st, false)) ∧
    (∀ l₁ song l₂, st.songs = l₁ ++ song :: l₂ →
      (∀ s ∈ l₁, matchNameB n s = false) → matchNameB n song = true →
      remove_song st n =
        ({ songs := l₁ ++ l₂
         , playlists := st.playlists.map fun p =>
             { p with songs := p.songs.filter fun s => !(matchNameB n s) }
         , undo_stack := st.undo_stack ++ [(UndoAction.remove, song)] },
         true)) := by
  constructor
  · intro h
    have hf : st.songs.find? (matchNameB n) = none :=
      List.find?_eq_none.mpr fun x hx => by simp [h x hx]
    simp [remove_song, hf]
  · intro l₁ song l₂ hs h₁ hsong
    have hf : st.songs.find? (matchNameB n) = some song := by
      rw [hs]; exact find?_first _ _ _ _ h₁ hsong
    have hne : song ∉ l₁ := fun hmem => by
      have := h₁ song hmem; rw [hsong] at this; cases this
    have herase : st.songs.erase song = l₁ ++ l₂ := by
      rw [hs, List.erase_append_right _ hne, List.erase_cons_head]
    simp [remove_song, hf, herase]

/-- Witness for the C1 theorem: both branches at concrete states. -/
theorem remove_song_spec_witness :
    remove_song stOne (pystr "zzz") = (stOne, false) ∧
    remove_song stOne (pystr "alpha") =
      ({ songs := ([] : List Song) ++ []
       , playlists := stOne.playlists.map fun p =>
           { p with songs := p.songs.filter fun s =>
               !(matchNameB (pystr "alpha") s) }
       , undo_stack := stOne.undo_stack ++ [(UndoAction.remove, songA)] },
       true) :=
  ⟨(remove_song_spec stOne (pystr "zzz")).1 (by decide),
   (remove_song_spec stOne (pystr "alpha")).2 [] songA [] rfl (by simp)
     (by decide)⟩

theorem addToFirstMatching_append (pl₁ : List Playlist) (p : Playlist)
    (pl₂ : List Playlist) (pn : PyStr) (song : Song)
    (h : ∀ q ∈ pl₁, matchPlB pn q = false) (hp : matchPlB pn p = true) :
    addToFirstMatching (pl₁ ++ p :: pl₂) pn song =
      pl₁ ++ { p with songs := p.songs ++ [song] } :: pl₂ := by
  induction pl₁ with
  | nil => simp [addToFirstMatching, hp]
  | cons q qs ih =>
    have hq : matchPlB pn q = false := h q (by simp)
    simpa [addToFirstMatching, hq] using
      ih fun r hr => h r (by simp [hr])

/-- C8: `add_song_to_playlist` changes nothing and reports not-found when
either lookup fails; when the first matching song is `song` and the
playlists decompose with their first match at `p`, it appends `song` at
the end of `p`'s song list (no duplicate check) and reports success. -/
theorem add_song_to_playlist_spec (st : AppState) (sn pn : PyStr) :
    ((st.songs.find? (matchNameB sn) = none ∨
      st.playlists.find? (matchPlB pn) = none) →
      add_song_to_playlist st sn pn = (st, false)) ∧
    (∀ song pl₁ p pl₂, st.songs.find? (matchNameB sn) = some song →
      st.playlists = pl₁ ++ p :: pl₂ →
      (∀ q ∈ pl₁, matchPlB pn q = false) → matchPlB pn p = true →
      add_song_to_playlist st sn pn =
        ({ st with playlists :=
            pl₁ ++ { p with songs := p.songs ++ [song] } :: pl₂ }, true)) := by
  constructor
  · rintro (h | h)
    · cases hg : st.playlists.find? (matchPlB pn) <;>
        simp [add_song_to_playlist, h, hg]
    · cases hf : st.songs.find? (matchNameB sn) <;>
        simp [add_song_to_playlist, h, hf]
  · intro song pl₁ p pl₂ hf hpl h₁ hp
    have hg : st.playlists.find? (matchPlB pn) = some p := by
      rw [hpl]; exact find?_first _ _ _ _ h₁ hp
    have hmatch : addToFirstMatching st.playlists pn song =
        pl₁ ++ { p with songs := p.songs ++ [song] } :: pl₂ := by
      rw [hpl]; exact addToFirstMatching_append _ _ _ _ _ h₁ hp
    simp [add_song_to_playlist, hf, hg, hmatch]

/-- Witness for the C8 theorem: both branches at concrete states. -/
theorem add_song_to_playlist_spec_witness :
    add_song_to_playlist stOne (pystr "zzz") (pystr "p") = (stOne, false) ∧
    add_song_to_playlist stOne (pystr "alpha") (pystr "p") =
      ({ stOne with playlists :=
          ([] : List Playlist) ++
            { playlistP with songs := playlistP.songs ++ [songA] } :: [] },
        true) :=
  ⟨(add_song_to_playlist_spec stOne (pystr "zzz") (pystr "p")).1
     (Or.inl (by decide)),
   (add_song_to_playlist_spec stOne (pystr "alpha") (pystr "p")).2 songA []
     playlistP [] (by decide) rfl (by simp) (by decide)⟩

theorem foldl_exportLine (xs : List Song) (acc : PyStr) :
    xs.foldl (fun a s => a ++ exportLine s) acc =
      acc ++ (xs.map exportLine).flatten := by
  induction xs generalizing acc with
  | nil => simp
  | cons s rest ih => simp [List.foldl_cons, ih, List.append_assoc]

/-- C9: when the export lookup finds playlist `p`, the exported text for
an empty playlist is exactly the `Playlist:` header line with no `Songs:`
section, and for a non-empty playlist it is the header, the `Songs:`
line, and one line per song entry in playlist order. -/
theorem export_playlist_spec (st : AppState) (pn : PyStr) (p : Playlist)
    (h : st.playlists.find? (matchPlB pn) = some p) :
    (p.songs = [] → export_playlist st pn =
      some (pystr "Playlist: " ++ p.name ++ pystr "\n")) ∧
    (p.songs ≠ [] → export_playlist st pn =
      some ((pystr "Playlist: " ++ p.name ++ pystr "\n") ++ pystr "Songs:\n" ++
        (p.songs.map exportLine).flatten)) := by
  constructor
  · intro he
    simp [export_playlist, h, he]
  · intro he
    have hne : p.songs.isEmpty = false := by
      simpa [List.isEmpty_iff] using he
    simp [export_playlist, h, hne, foldl_exportLine, List.append_assoc]

/-- Witness for the C9 theorem: empty and non-empty playlists. -/
theorem export_playlist_spec_witness :
    export_playlist stEmptyPl (pystr "q") =
      some (pystr "Playlist: " ++ pystr "Q" ++ pystr "\n") ∧
    export_playlist stOne (pystr "p") =
      some ((pystr "Playlist: " ++ playlistP.name ++ pystr "\n") ++
        pystr "Songs:\n" ++ (playlistP.songs.map exportLine).flatten) :=
  ⟨(export_playlist_spec stEmptyPl (pystr "q")
      { name := pystr "Q", songs := [] } (by decide)).1 rfl,
   (export_playlist_spec stOne (pystr "p") playlistP (by decide)).2
     (by decide)⟩

theorem mem_addToFirstMatching (pls : List Playlist) (pn : PyStr)
    (song : Song) (p : Playlist) (hp : p ∈ addToFirstMatching pls pn song) :
    ∃ q ∈ pls, p = q ∨ p = { q with songs := q.songs ++ [song] } := by
  induction pls with
  | nil => simp [addToFirstMatching] at hp
  | cons q qs ih =>
    by_cases hq : matchPlB pn q = true
    · simp [addToFirstMatching, hq] at hp
      rcases hp with hp | hp
      · exact ⟨q, by simp, Or.inr hp⟩
      · exact ⟨p, by simp [hp], Or.inl rfl⟩
    · simp [addToFirstMatching, hq] at hp
      rcases hp with hp | hp
      · exact ⟨q, by simp, Or.inl hp⟩
      · obtain ⟨r, hr, hpr⟩ := ih hp
        exact ⟨r, by simp [hr], hpr⟩

/-- C7: the cross-entity consistency invariant — every song referenced by
any playlist has a case-insensitive name match in the master song list —
is preserved by every completed library-store operation: add song,
remove song, undo, create playlist, add song to playlist. -/
theorem invariant_preserved (st : AppState) (op : LibOp)
    (h : invariant st) : invariant (applyOp st op) := by
  cases op with
  | addSong s =>
    intro p hp s' hs'
    simp only [applyOp, add_song] at hp ⊢
    obtain ⟨t, ht, hname⟩ := h p hp s' hs'
    exact ⟨t, List.mem_append_left _ ht, hname⟩
  | createPlaylist n =>
    intro p hp s' hs'
    simp only [applyOp, create_playlist] at hp ⊢
    rcases List.mem_append.mp hp with hp | hp
    · exact h p hp s' hs'
    · simp at hp
      subst hp
      simp at hs'
  | undoOp =>
    cases hl : st.undo_stack.getLast? with
    | none =>
      simpa [applyOp, undo, hl] using h
    | some entry =>
      obtain ⟨a, song⟩ := entry
      cases a
      intro p hp s' hs'
      simp only [applyOp, undo, hl] at hp ⊢
      obtain ⟨t, ht, hname⟩ := h p hp s' hs'
      exact ⟨t, List.mem_append_left _ ht, hname⟩
  | removeSong n =>
    cases hf : st.songs.find? (matchNameB n) with
    | none =>
      simpa [applyOp, remove_song, hf] using h
    | some song =>
      intro p hp s' hs'
      simp only [applyOp, remove_song, hf] at hp ⊢
      obtain ⟨q, hq, rfl⟩ := List.mem_map.mp hp
      obtain ⟨hs'mem, hs'keep⟩ := List.mem_filter.mp hs'
      obtain ⟨t, ht, hname⟩ := h q hq s' hs'mem
      refine ⟨t, ?_, hname⟩
      have hsong : matchNameB n song = true := List.find?_some hf
      have hkeep : matchNameB n s' = false := by simpa using hs'keep
      have htne : t ≠ song := by
        intro he
        subst he
        have h1 : lowerStr t.name = lowerStr n := by
          simpa [matchNameB] using hsong
        have h2 : matchNameB n s' = true := by
          simp [matchNameB, ← hname, h1]
        rw [h2] at hkeep
        cases hkeep
      exact (List.mem_erase_of_ne htne).mpr ht
  | addSongToPlaylist sn pn =>
    cases hf : st.songs.find? (matchNameB sn) with
    | none =>
      simpa [applyOp, add_song_to_playlist, hf] using h
    | some song =>
      cases hg : st.playlists.find? (matchPlB pn) with
      | none =>
        simpa [applyOp, add_song_to_playlist, hf, hg] using h
      | some q0 =>
        intro p hp s' hs'
        simp only [applyOp, add_song_to_playlist, hf, hg] at hp ⊢
        obtain ⟨q, hq, hcase⟩ := mem_addToFirstMatching _ _ _ _ hp
        rcases hcase with hpq | hpq
        · rw [hpq] at hs'
          exact h q hq s' hs'
        · simp only [hpq] at hs'
          rcases List.mem_append.mp hs' with hs2 | hs2
          · exact h q hq s' hs2
          · simp at hs2
            subst hs2
            exact ⟨s', List.mem_of_find?_eq_some hf, rfl⟩

/-- Witness for the C7 theorem: a concrete consistent state and a
concrete remove operation. -/
theorem invariant_preserved_witness :
    invariant stOne ∧
    invariant (applyOp stOne (LibOp.removeSong (pystr "alpha"))) :=
  ⟨by decide, invariant_preserved stOne (LibOp.removeSong (pystr "alpha"))
    (by decide)⟩

/-- C6 counterexample: a source file that decodes but lacks the
`playlists` key is "malformed / missing expected fields"; the load
reports the problem (caught `KeyError`) but the already-parsed songs stay
in the store, so the state is not the empty pre-load state. -/
theorem load_data_partial_recovery_counterexample :
    (load_data emptyState
        (.parsed { songs := some [Song.to_dict songA], playlists := none })).2
      = LoadStatus.reported ∧
    (load_data emptyState
        (.parsed { songs := some [Song.to_dict songA], playlists := none })).1.songs
      = [songA] ∧
    [songA] ≠ ([] : List Song) :=
  ⟨rfl, rfl, by decide⟩

/-- C6 amended: on undecodable JSON or a `KeyError` raised before the
songs assignment, load reports the problem and leaves the state
unchanged (empty when pre-load); but when the songs collection parses
successfully and the failure happens afterwards (missing or malformed
`playlists`), the parsed songs are retained — corrupt data is not
discarded wholesale. -/
theorem load_data_spec (st : AppState) :
    (load_data st .malformed = (st, .reported)) ∧
    (∀ d : RawData, d.songs = none →
      load_data st (.parsed d) = (st, .reported)) ∧
    (∀ d rawSongs, d.songs = some rawSongs →
      rawSongs.mapM Song.from_dict = Except.error PyErr.keyErr →
      load_data st (.parsed d) = (st, .reported)) ∧
    (∀ d rawSongs songs, d.songs = some rawSongs →
      rawSongs.mapM Song.from_dict = Except.ok songs → d.playlists = none →
      load_data st (.parsed d) = ({ st with songs := songs }, .reported)) := by
  refine ⟨rfl, ?_, ?_, ?_⟩
  · intro d hd
    simp [load_data, hd, getKey]
  · intro d rawSongs hd hmap
    simp only [load_data, hd, getKey]
    rw [hmap]
  · intro d rawSongs songs hd hmap hpl
    simp only [load_data, hd, hpl, getKey]
    rw [hmap]

/-- Witness for the amended C6 theorem at concrete inputs. -/
theorem load_data_spec_witness :
    load_data emptyState (.parsed { songs := none, playlists := none }) =
      (emptyState, .reported) ∧
    load_data emptyState (.parsed { songs := some [rawBad], playlists := none }) =
      (emptyState, .reported) ∧
    load_data emptyState
        (.parsed { songs := some [Song.to_dict songA], playlists := none }) =
      ({ emptyState with songs := [songA] }, .reported) :=
  ⟨(load_data_spec emptyState).2.1 _ rfl,
   (load_data_spec emptyState).2.2.1 _ [rawBad] rfl rfl,
   (load_data_spec emptyState).2.2.2 _ [Song.to_dict songA] [songA] rfl rfl rfl⟩

theorem splitComma_ne_nil (l : PyStr) : splitComma l ≠ [] := by
  cases l with
  | nil => simp [splitComma]
  | cons c cs =>
    simp only [splitComma]
    split
    · simp
    · split <;> simp

theorem splitComma_cons_of_ne (c : Char) (l : PyStr) (hc : c ≠ ',')
    (p : PyStr) (ps : List PyStr) (h : splitComma l = p :: ps) :
    splitComma (c :: l) = (c :: p) :: ps := by
  simp [splitComma, h, hc]

theorem no_comma_splitComma (l : PyStr) (h : ',' ∉ l) : splitComma l = [l] := by
  induction l with
  | nil => rfl
  | cons c cs ih =>
    have hc : c ≠ ',' := fun he => h (by simp [he])
    have hcs : ',' ∉ cs := fun hm => h (by simp [hm])
    exact splitComma_cons_of_ne c cs hc cs [] (ih hcs)

theorem splitComma_no_comma (l : PyStr) : ∀ q ∈ splitComma l, ',' ∉ q := by
  induction l with
  | nil =>
    intro q hq
    simp [splitComma] at hq
    subst hq
    simp
  | cons c cs ih =>
    intro q hq
    rcases hsp : splitComma cs with _ | ⟨p, ps⟩
    · exact absurd hsp (splitComma_ne_nil _)
    · by_cases hc : c = ','
      · have hcc : splitComma (c :: cs) = [] :: p :: ps := by
          simp [splitComma, hsp, hc]
        rw [hcc] at hq
        rcases List.mem_cons.mp hq with rfl | hq
        · simp
        · exact ih q (hsp ▸ hq)
      · have hcc : splitComma (c :: cs) = (c :: p) :: ps :=
          splitComma_cons_of_ne c cs hc p ps hsp
        rw [hcc] at hq
        rcases List.mem_cons.mp hq with rfl | hq
        · intro hmem
          rcases List.mem_cons.mp hmem with he | he
          · exact hc he.symm
          · exact ih p (by rw [hsp]; simp) he
        · exact ih q (by rw [hsp]; exact List.mem_cons_of_mem _ hq)

theorem splitComma_append (a : PyStr) (rest : PyStr) (h : ',' ∉ a) :
    splitComma (a ++ ',' :: rest) = a :: splitComma rest := by
  induction a with
  | nil =>
    rcases hsp : splitComma rest with _ | ⟨p, ps⟩
    · exact absurd hsp (splitComma_ne_nil _)
    · simp [splitComma, hsp]
  | cons c a₂ ih =>
    have hc : c ≠ ',' := fun he => h (by simp [he])
    have h₂ : ',' ∉ a₂ := fun hm => h (by simp [hm])
    rw [List.cons_append]
    exact splitComma_cons_of_ne c _ hc a₂ (splitComma rest) (ih h₂)

theorem pyStrip_cons_space (l : PyStr) : pyStrip (' ' :: l) = pyStrip l := by
  unfold pyStrip
  rw [List.dropWhile_cons_of_pos (by decide)]

theorem pyStrip_eq_rdropWhile (l : PyStr) :
    pyStrip l = List.rdropWhile isPySpace (l.dropWhile isPySpace) := rfl

theorem mem_of_mem_pyStrip (a : Char) (l : PyStr) (ha : a ∈ pyStrip l) :
    a ∈ l := by
  rw [pyStrip_eq_rdropWhile] at ha
  exact (List.dropWhile_suffix isPySpace).subset
    ((List.rdropWhile_prefix _ _).subset ha)

theorem head_dropWhile_false (p : Char → Bool) (l : PyStr) (c : Char)
    (t : PyStr) (h : l.dropWhile p = c :: t) : p c = false := by
  induction l with
  | nil => simp [List.dropWhile] at h
  | cons x xs ih =>
    by_cases hx : p x
    · rw [List.dropWhile_cons_of_pos hx] at h
      exact ih h
    · rw [List.dropWhile_cons_of_neg hx] at h
      injection h with h1 h2
      subst h1
      simpa using hx

theorem pyStrip_idem (l : PyStr) : pyStrip (pyStrip l) = pyStrip l := by
  rw [pyStrip_eq_rdropWhile, pyStrip_eq_rdropWhile]
  have hdw : (List.rdropWhile isPySpace (l.dropWhile isPySpace)).dropWhile
      isPySpace = List.rdropWhile isPySpace (l.dropWhile isPySpace) := by
    rcases he : List.rdropWhile isPySpace (l.dropWhile isPySpace) with _ | ⟨c, t⟩
    · rfl
    · obtain ⟨u, hu⟩ := List.rdropWhile_prefix isPySpace (l.dropWhile isPySpace)
      rw [he] at hu
      have hc : isPySpace c = false := by
        apply head_dropWhile_false isPySpace l c (t ++ u)
        rw [← hu]
        rfl
      exact List.dropWhile_cons_of_neg (by simp [hc])
  rw [hdw, List.rdropWhile_idempotent]

theorem roundtrip_artists (as : List PyStr) (hne : as ≠ [])
    (h : ∀ a ∈ as, ',' ∉ a ∧ pyStrip a = a) :
    (splitComma (joinCommaSpace as)).map pyStrip = as := by
  induction as with
  | nil => exact absurd rfl hne
  | cons a as₂ ih =>
    cases as₂ with
    | nil =>
      have hc : ',' ∉ a := (h a (by simp)).1
      have hs : pyStrip a = a := (h a (by simp)).2
      simp [joinCommaSpace, no_comma_splitComma a hc, hs]
    | cons b rest =>
      have hc : ',' ∉ a := (h a (by simp)).1
      have hs : pyStrip a = a := (h a (by simp)).2
      have ih2 : (splitComma (joinCommaSpace (b :: rest))).map pyStrip =
          b :: rest := ih (by simp) fun x hx => h x (by simp [hx])
      rcases hsp : splitComma (joinCommaSpace (b :: rest)) with _ | ⟨p, ps⟩
      · exact absurd hsp (splitComma_ne_nil _)
      · have hstep : splitComma (joinCommaSpace (a :: b :: rest)) =
            a :: (' ' :: p) :: ps := by
          show splitComma (a ++ ',' :: ' ' :: joinCommaSpace (b :: rest)) = _
          rw [splitComma_append a _ hc]
          congr 1
          exact splitComma_cons_of_ne ' ' _ (by decide) p ps hsp
        rw [hstep]
        simp only [List.map_cons]
        rw [hs, pyStrip_cons_space]
        have htail : pyStrip p :: List.map pyStrip ps = b :: rest := by
          have h3 := ih2
          rw [hsp] at h3
          simpa using h3
        rw [htail]

/-- C3: for any input with a non-empty name and a duration matching the
plain `^\d+:[0-5]\d$` pattern, construction succeeds, and deserializing
the serialized record (which re-runs full construction validation on the
joined artist text) succeeds and reproduces the song with every field
equal. -/
theorem song_serialize_roundtrip
    (name artistsText album genre duration : PyStr) (hn : name ≠ [])
    (hd : plainDurMatch duration = true) :
    ∃ s, songInit name artistsText album genre duration = Except.ok s ∧
      Song.from_dict s.to_dict = Except.ok s := by
  have hre : reDurationMatch duration = true := by
    unfold reDurationMatch
    rw [hd]
    rfl
  refine ⟨{ name := name, artists := (splitComma artistsText).map pyStrip,
            album := album, genre := genre, duration := duration }, ?_, ?_⟩
  · simp [songInit, hn, hre]
  · have hfd : Song.from_dict (Song.to_dict
        { name := name, artists := (splitComma artistsText).map pyStrip,
          album := album, genre := genre, duration := duration }) =
        songInit name (joinCommaSpace ((splitComma artistsText).map pyStrip))
          album genre duration := rfl
    rw [hfd]
    have hround : (splitComma (joinCommaSpace
        ((splitComma artistsText).map pyStrip))).map pyStrip =
        (splitComma artistsText).map pyStrip := by
      apply roundtrip_artists
      · rcases hsp : splitComma artistsText with _ | ⟨p, ps⟩
        · exact absurd hsp (splitComma_ne_nil _)
        · simp [hsp]
      · intro a ha
        obtain ⟨q, hq, rfl⟩ := List.mem_map.mp ha
        refine ⟨fun hmem => ?_, pyStrip_idem q⟩
        exact splitComma_no_comma _ q hq (mem_of_mem_pyStrip ',' q hmem)
    simp [songInit, hn, hre, hround]

/-- Witness for the C3 theorem at the spec's own example song. -/
theorem song_serialize_roundtrip_witness :
    songInit (pystr "Alpha") (pystr "A1, A2") (pystr "Alb") (pystr "Rock")
        (pystr "3:30") = Except.ok songA ∧
    Song.from_dict songA.to_dict = Except.ok songA := by
  obtain ⟨s, h1, h2⟩ := song_serialize_roundtrip (pystr "Alpha")
    (pystr "A1, A2") (pystr "Alb") (pystr "Rock") (pystr "3:30")
    (by decide) (by decide)
  have h3 : songInit (pystr "Alpha") (pystr "A1, A2") (pystr "Alb")
      (pystr "Rock") (pystr "3:30") = Except.ok songA := rfl
  rw [h1] at h3
  injection h3 with h4
  subst h4
  exact ⟨h1, h2⟩

end MusicApp
